import Mathlib

set_option maxRecDepth 100000

/-!
# Verification of the `cachio` HTTP caching middleware

Shallow embedding of the parts of the repository that the verified claims
are about:

* `policy.py` — `parse_cache_control`, `check_freshness`, `check_stale_if_error`;
* `httpcache.py` — `HTTPCache` (cache keys, serialization, response
  reconstruction, the `send` pipeline);
* `wrappers/httpx.py` — the base64 body codec of `HttpxCacheClient`;
* `backends/memory.py` — `InMemoryCache` (LRU + TTL ordered map).

Conventions.  Python `dict[str, str]` values are association lists with
unique keys; `requests.structures.CaseInsensitiveDict` gets a dedicated
pair of lookup/update functions that compare keys after ASCII lowering.
Instants (`datetime`) are modelled as integers (seconds); the external
date parser `email.utils.parsedate_to_datetime` and the clock
`datetime.now` are parameters (`to_date`, `now`) of every definition that
uses them, since they are stdlib collaborators, not repository code.
Byte strings are `List Nat` with every element `< 256`.
-/

namespace Cachio

/-! ## Small Python-string helpers -/

/-- ASCII lowering of one character (`str.lower` restricted to ASCII,
which is all the header tokens involved use). -/
def lowerChar (c : Char) : Char :=
  if 'A' ≤ c ∧ c ≤ 'Z' then Char.ofNat (c.toNat + 32) else c

/-- `str.lower`. -/
def strLower (s : String) : String := ⟨s.data.map lowerChar⟩

/-- Characters stripped by `str.strip()` (the ASCII ones). -/
def isPySpace (c : Char) : Bool :=
  c = ' ' ∨ c = '\t' ∨ c = '\n' ∨ c = '\r' ∨ c = '\x0b' ∨ c = '\x0c'

def trimChars (cs : List Char) : List Char :=
  ((cs.dropWhile isPySpace).reverse.dropWhile isPySpace).reverse

/-- `str.strip()`. -/
def pyStrip (s : String) : String := ⟨trimChars s.data⟩

/-- `str.split(sep)` for a one-character separator; `"".split(",") = [""]`. -/
def splitChar (sep : Char) : List Char → List (List Char)
  | [] => [[]]
  | c :: cs =>
    if c = sep then [] :: splitChar sep cs
    else
      match splitChar sep cs with
      | [] => [[c]]
      | g :: gs => (c :: g) :: gs

def pySplit (sep : Char) (s : String) : List String :=
  (splitChar sep s.data).map String.mk

/-- `part.split(sep, 1)` when `sep in part`: the text before the first
occurrence and the text after it; `none` when `sep` does not occur. -/
def splitFirst (sep : Char) : List Char → Option (List Char × List Char)
  | [] => none
  | c :: cs =>
    if c = sep then some ([], cs)
    else (splitFirst sep cs).map (fun p => (c :: p.1, p.2))

def digitsToNat? (cs : List Char) : Option Nat :=
  if cs = [] then none
  else if cs.all (fun c => '0' ≤ c ∧ c ≤ '9') then
    some (cs.foldl (fun acc c => acc * 10 + (c.toNat - 48)) 0)
  else none

/-- Python `int(s)` on a string: strip whitespace, optional sign, decimal
digits; `none` models `ValueError`. -/
def pyInt? (s : String) : Option Int :=
  match trimChars s.data with
  | '+' :: ds => (digitsToNat? ds).map Int.ofNat
  | '-' :: ds => (digitsToNat? ds).map (fun n => -(Int.ofNat n))
  | ds => (digitsToNat? ds).map Int.ofNat

/-- Truthiness of an optional string (`None` and `""` are falsy). -/
def truthy : Option String → Bool
  | some v => v ≠ ""
  | none => false

/-- Python `a or b` on optional strings. -/
def pyOr (a b : Option String) : Option String :=
  if truthy a then a else b

/-! ## Dictionaries

A plain `dict[str, str]` (case-sensitive keys) and requests/httpx-style
case-insensitive header maps.  Both are association lists. -/

def dictGet (h : List (String × String)) (k : String) : Option String :=
  (h.find? (fun p => p.1 = k)).map Prod.snd

/-- Case-insensitive lookup (`CaseInsensitiveDict.__getitem__`). -/
def ciGet (h : List (String × String)) (k : String) : Option String :=
  (h.find? (fun p => strLower p.1 = strLower k)).map Prod.snd

/-- Case-insensitive update (`CaseInsensitiveDict.__setitem__`): replace
the entry whose lowered key matches, else append. -/
def ciSet (h : List (String × String)) (k v : String) : List (String × String) :=
  if h.any (fun p => strLower p.1 = strLower k) then
    h.map (fun p => if strLower p.1 = strLower k then (k, v) else p)
  else h ++ [(k, v)]

/-! ## UTF-8 (Python `bytes.decode("utf-8", errors="replace")` / `str.encode`) -/

def utf8EncodeChar (n : Nat) : List Nat :=
  if n < 128 then [n]
  else if n < 2048 then [192 + n / 64, 128 + n % 64]
  else if n < 65536 then [224 + n / 4096, 128 + n / 64 % 64, 128 + n % 64]
  else [240 + n / 262144, 128 + n / 4096 % 64, 128 + n / 64 % 64, 128 + n % 64]

/-- `str.encode("utf-8")`. -/
def utf8Encode (s : String) : List Nat :=
  s.data.foldr (fun c acc => utf8EncodeChar c.toNat ++ acc) []

def isCont (b : Nat) : Bool := 128 ≤ b ∧ b ≤ 191

/-- One step of the replacing UTF-8 decoder: decode the first scalar (or
produce U+FFFD for a maximal invalid subsequence) and return the rest. -/
def utf8Step : Nat → List Nat → Nat × List Nat
  | b, rest =>
    if b < 128 then (b, rest)
    else if b < 194 then (65533, rest)
    else if b ≤ 223 then
      match rest with
      | b2 :: rest2 =>
        if isCont b2 then ((b - 192) * 64 + (b2 - 128), rest2) else (65533, rest)
      | [] => (65533, [])
    else if b ≤ 239 then
      let lo2 := if b = 224 then 160 else 128
      let hi2 := if b = 237 then 159 else 191
      match rest with
      | b2 :: rest2 =>
        if lo2 ≤ b2 ∧ b2 ≤ hi2 then
          match rest2 with
          | b3 :: rest3 =>
            if isCont b3 then
              ((b - 224) * 4096 + (b2 - 128) * 64 + (b3 - 128), rest3)
            else (65533, rest)
          | [] => (65533, [])
        else (65533, rest)
      | [] => (65533, [])
    else if b ≤ 244 then
      let lo2 := if b = 240 then 144 else 128
      let hi2 := if b = 244 then 143 else 191
      match rest with
      | b2 :: rest2 =>
        if lo2 ≤ b2 ∧ b2 ≤ hi2 then
          match rest2 with
          | b3 :: rest3 =>
            if isCont b3 then
              match rest3 with
              | b4 :: rest4 =>
                if isCont b4 then
                  ((b - 240) * 262144 + (b2 - 128) * 4096 + (b3 - 128) * 64 + (b4 - 128), rest4)
                else (65533, rest)
              | [] => (65533, [])
            else (65533, rest)
          | [] => (65533, [])
        else (65533, rest)
      | [] => (65533, [])
    else (65533, rest)

def utf8DecAux : Nat → List Nat → List Nat
  | 0, _ => []
  | _, [] => []
  | fuel + 1, b :: rest =>
    let st := utf8Step b rest
    st.1 :: utf8DecAux fuel st.2

/-- `bytes.decode("utf-8", errors="replace")`, as a list of code points. -/
def utf8DecodeReplace (bs : List Nat) : List Nat :=
  utf8DecAux bs.length bs

/-- Re-encoding of a decoded string (`str.encode("utf-8")` applied to the
code-point list). -/
def utf8EncodePoints (ps : List Nat) : List Nat :=
  ps.foldr (fun p acc => utf8EncodeChar p ++ acc) []

/-! ## Base64 (`base64.b64encode` / `base64.b64decode`) -/

def b64Alphabet : List Char :=
  "ABCDEFGHIJKLMNOPQRSTUVWXYZabcdefghijklmnopqrstuvwxyz0123456789+/".data

def b64EncChar (n : Nat) : Char := b64Alphabet.getD n 'A'

def b64EncodeBytes : List Nat → List Char
  | [] => []
  | [a] => [b64EncChar (a / 4), b64EncChar (a % 4 * 16), '=', '=']
  | [a, b] => [b64EncChar (a / 4), b64EncChar (a % 4 * 16 + b / 16), b64EncChar (b % 16 * 4), '=']
  | a :: b :: c :: rest =>
    b64EncChar (a / 4) :: b64EncChar (a % 4 * 16 + b / 16) ::
      b64EncChar (b % 16 * 4 + c / 64) :: b64EncChar (c % 64) :: b64EncodeBytes rest

def b64DecChar (c : Char) : Nat := (b64Alphabet.indexOf c)

def b64DecodeChars : List Char → List Nat
  | c1 :: c2 :: c3 :: c4 :: rest =>
    let d1 := b64DecChar c1
    let d2 := b64DecChar c2
    if c3 = '=' then [d1 * 4 + d2 / 16]
    else
      let d3 := b64DecChar c3
      if c4 = '=' then [d1 * 4 + d2 / 16, d2 % 16 * 16 + d3 / 4]
      else
        (d1 * 4 + d2 / 16) :: (d2 % 16 * 16 + d3 / 4) ::
          (d3 % 4 * 64 + b64DecChar c4) :: b64DecodeChars rest
  | _ => []

/-- `base64.b64encode(bs).decode("ascii")`. -/
def b64EncodeStr (bs : List Nat) : String := ⟨b64EncodeBytes bs⟩

/-- `base64.b64decode(s)`. -/
def b64DecodeStr (s : String) : List Nat := b64DecodeChars s.data

/-! ## MD5 (`hashlib.md5(...).hexdigest()`) -/

def m32 (n : Nat) : Nat := n % 4294967296

def rotl32 (x c : Nat) : Nat := m32 (x <<< c) ||| (x >>> (32 - c))

def md5K : List Nat :=
  [3614090360, 3905402710, 606105819, 3250441966, 4118548399, 1200080426, 2821735955, 4249261313,
   1770035416, 2336552879, 4294925233, 2304563134, 1804603682, 4254626195, 2792965006, 1236535329,
   4129170786, 3225465664, 643717713, 3921069994, 3593408605, 38016083, 3634488961, 3889429448,
   568446438, 3275163606, 4107603335, 1163531501, 2850285829, 4243563512, 1735328473, 2368359562,
   4294588738, 2272392833, 1839030562, 4259657740, 2763975236, 1272893353, 4139469664, 3200236656,
   681279174, 3936430074, 3572445317, 76029189, 3654602809, 3873151461, 530742520, 3299628645,
   4096336452, 1126891415, 2878612391, 4237533241, 1700485571, 2399980690, 4293915773, 2240044497,
   1873313359, 4264355552, 2734768916, 1309151649, 4149444226, 3174756917, 718787259, 3951481745]

def md5S : List Nat :=
  [7, 12, 17, 22, 7, 12, 17, 22, 7, 12, 17, 22, 7, 12, 17, 22,
   5, 9, 14, 20, 5, 9, 14, 20, 5, 9, 14, 20, 5, 9, 14, 20,
   4, 11, 16, 23, 4, 11, 16, 23, 4, 11, 16, 23, 4, 11, 16, 23,
   6, 10, 15, 21, 6, 10, 15, 21, 6, 10, 15, 21, 6, 10, 15, 21]

def md5Round (M : List Nat) (st : Nat × Nat × Nat × Nat) (i : Nat) : Nat × Nat × Nat × Nat :=
  let (a, b, c, d) := st
  let mask := 4294967295
  let fg : Nat × Nat :=
    if i < 16 then ((b &&& c) ||| ((b ^^^ mask) &&& d), i)
    else if i < 32 then ((d &&& b) ||| ((d ^^^ mask) &&& c), (5 * i + 1) % 16)
    else if i < 48 then (b ^^^ c ^^^ d, (3 * i + 5) % 16)
    else (c ^^^ (b ||| (d ^^^ mask)), (7 * i) % 16)
  let f := m32 (fg.1 + a + md5K.getD i 0 + M.getD fg.2 0)
  (d, m32 (b + rotl32 f (md5S.getD i 0)), b, c)

def leWord (bs : List Nat) : Nat :=
  bs.getD 0 0 + bs.getD 1 0 * 256 + bs.getD 2 0 * 65536 + bs.getD 3 0 * 16777216

def md5Chunk (st : Nat × Nat × Nat × Nat) (chunk : List Nat) : Nat × Nat × Nat × Nat :=
  let M := (List.range 16).map (fun j => leWord ((chunk.drop (4 * j)).take 4))
  let r := (List.range 64).foldl (md5Round M) st
  (m32 (st.1 + r.1), m32 (st.2.1 + r.2.1), m32 (st.2.2.1 + r.2.2.1), m32 (st.2.2.2 + r.2.2.2))

def md5Chunks : Nat → (Nat × Nat × Nat × Nat) → List Nat → Nat × Nat × Nat × Nat
  | 0, st, _ => st
  | _, st, [] => st
  | fuel + 1, st, bs => md5Chunks fuel (md5Chunk st (bs.take 64)) (bs.drop 64)

def md5Pad (msg : List Nat) : List Nat :=
  msg ++ 128 :: List.replicate ((119 - msg.length % 64) % 64) 0 ++
    [msg.length * 8 % 256, msg.length * 8 / 256 % 256, msg.length * 8 / 65536 % 256,
     msg.length * 8 / 16777216 % 256, msg.length * 8 / 4294967296 % 256,
     msg.length * 8 / 1099511627776 % 256, msg.length * 8 / 281474976710656 % 256,
     msg.length * 8 / 72057594037927936 % 256]

def le4 (w : Nat) : List Nat := [w % 256, w / 256 % 256, w / 65536 % 256, w / 16777216 % 256]

/-- The 16-byte MD5 digest of a byte string. -/
def md5Bytes (msg : List Nat) : List Nat :=
  let p := md5Pad msg
  let r := md5Chunks p.length (1732584193, 4023233417, 2562383102, 271733878) p
  le4 r.1 ++ le4 r.2.1 ++ le4 r.2.2.1 ++ le4 r.2.2.2

def hexDigitChar (n : Nat) : Char := "0123456789abcdef".data.getD n '0'

def byteToHex (b : Nat) : List Char := [hexDigitChar (b / 16 % 16), hexDigitChar (b % 16)]

/-- `hashlib.md5(msg).hexdigest()`. -/
def md5Hex (msg : List Nat) : String :=
  ⟨(md5Bytes msg).foldr (fun b acc => byteToHex b ++ acc) []⟩

/-! ## `policy.py`

`parse_cache_control` builds a Python dict from directive token to
optional value; we model that dict as an association list with unique
keys built by overwrite-or-append (`dict.__setitem__`). -/

def ccSet (m : List (String × Option String)) (k : String) (v : Option String) :
    List (String × Option String) :=
  if m.any (fun p => p.1 = k) then m.map (fun p => if p.1 = k then (k, v) else p)
  else m ++ [(k, v)]

def ccGet (m : List (String × Option String)) (k : String) : Option (Option String) :=
  (m.find? (fun p => p.1 = k)).map Prod.snd

/-- Python `cc.get(k)`: `None` both when the token is absent and when it
was present without a value. -/
def ccGetV (m : List (String × Option String)) (k : String) : Option String :=
  (ccGet m k).bind id

/-- Python `k in cc`. -/
def ccMem (m : List (String × Option String)) (k : String) : Bool :=
  (ccGet m k).isSome

/-- Shared body of both Cache-Control parsers: split the header value on
commas, strip each part, split on the first `=`; keys lowered, values
verbatim. -/
def parseCCValue (v : String) : List (String × Option String) :=
  (pySplit ',' v).foldl
    (fun cc part =>
      let part := pyStrip part
      match splitFirst '=' part.data with
      | some kv => ccSet cc (strLower ⟨kv.1⟩) (some ⟨kv.2⟩)
      | none => ccSet cc (strLower part) none)
    []

/-- `policy.parse_cache_control`: headers are a plain dict, looked up
case-sensitively under both spellings (`h.get("cache-control") or
h.get("Cache-Control")`); a falsy value yields the empty map. -/
def parse_cache_control (headers : List (String × String)) : List (String × Option String) :=
  let val := pyOr (dictGet headers "cache-control") (dictGet headers "Cache-Control")
  match val with
  | some v => if v = "" then [] else parseCCValue v
  | none => []

def FRESH : Int := 1
def STALE : Int := 0

/-- `utils.check_date` under the `try/except` of `policy.py`: the `Date`
header parsed by the external `to_date`, with `now` substituted when the
header is absent or empty (which makes `check_date` raise). -/
def dateOf (to_date : String → Int) (now : Int) (headers : List (String × String)) : Int :=
  match dictGet headers "Date" with
  | some s => if s = "" then now else to_date s
  | none => now

/-- `policy.check_freshness`.  `to_date` models
`email.utils.parsedate_to_datetime` and `now` models
`datetime.now(timezone.utc)`; instants are seconds. -/
def check_freshness (to_date : String → Int) (now : Int)
    (req_headers resp_headers : List (String × String)) : Int :=
  let req_cc := parse_cache_control req_headers
  let resp_cc := parse_cache_control resp_headers
  if ccMem req_cc "no-cache" then 2
  else if ccMem resp_cc "no-cache" then STALE
  else if ccMem req_cc "only-if-cached" then FRESH
  else
    let date := dateOf to_date now resp_headers
    let current_age : Int := now - date
    let resp_max_age := ccGetV resp_cc "max-age"
    let fresh :=
      match resp_max_age with
      | some v =>
        match pyInt? v with
        | some n => decide (current_age ≤ n)
        | none => false
      | none =>
        match pyOr (dictGet resp_headers "expires") (dictGet resp_headers "Expires") with
        | some e => if e = "" then false else decide (now ≤ to_date e)
        | none => false
    let max_stale := ccGetV req_cc "max-stale"
    let fresh :=
      if fresh = false ∧ max_stale ≠ none then
        match max_stale with
        | some ms =>
          if ms = "" then true
          else
            match pyInt? ms with
            | some m =>
              match resp_max_age with
              | some v =>
                match pyInt? v with
                | some n => if current_age - n ≤ m then true else fresh
                | none => fresh
              | none => fresh
            | none => fresh
        | none => true
      else fresh
    let min_fresh := ccGetV req_cc "min-fresh"
    let fresh :=
      if fresh = true ∧ min_fresh ≠ none then
        match min_fresh with
        | some mf =>
          match pyInt? mf with
          | some f =>
            match resp_max_age with
            | some v =>
              match pyInt? v with
              | some n => if n - current_age < f then false else fresh
              | none => fresh
            | none => fresh
          | none => fresh
        | none => fresh
      else fresh
    if fresh then FRESH else STALE

/-- `policy.check_stale_if_error`. -/
def check_stale_if_error (to_date : String → Int) (now : Int)
    (resp_headers : List (String × String)) : Bool :=
  let cc := parse_cache_control resp_headers
  let stale_if_error := ccGetV cc "stale-if-error"
  if truthy stale_if_error = false then false
  else
    match stale_if_error with
    | some s =>
      match pyInt? s with
      | some stale_window =>
        let date := dateOf to_date now resp_headers
        let age : Int := now - date
        decide (age ≤ stale_window)
      | none => false
    | none => false

/-! ## `httpcache.py` — data model -/

/-- `requests.PreparedRequest`, restricted to the fields `HTTPCache.send`
reads: `url` (may be `None`), `method`, and a case-insensitive header
map. -/
structure HRequest where
  url : Option String
  method : String
  headers : List (String × String)
deriving DecidableEq

/-- `requests.Response`, restricted to the fields the cache touches. -/
structure HResponse where
  status_code : Int
  reason : String
  resp_url : String
  headers : List (String × String)
  content : List Nat
  encoding : Option String
deriving DecidableEq

/-- The stored `CacheEntry` record built by `_serialize_response`. -/
structure CacheEntry where
  status_code : Int
  reason : String
  entry_url : String
  headers : List (String × String)
  body : String
  encoding : Option String
  timestamp : String
deriving DecidableEq

/-- A synchronous `CacheBackend` modelled as its canonical pure
implementation: a finite map from keys to entries. -/
abbrev BackendState := List (String × CacheEntry)

def bGet (b : BackendState) (k : String) : Option CacheEntry :=
  (b.find? (fun p => p.1 = k)).map Prod.snd

def bSet (b : BackendState) (k : String) (e : CacheEntry) : BackendState :=
  if b.any (fun p => p.1 = k) then b.map (fun p => if p.1 = k then (k, e) else p)
  else b ++ [(k, e)]

def bDel (b : BackendState) (k : String) : BackendState :=
  b.filter (fun p => p.1 ≠ k)

/-! ## `httpcache.py` — `HTTPCache` methods -/

/-- `HTTPCache._cache_keys`: MD5 hex of the UTF-8 encoded URL (the URL
alone — no method prefix). -/
def hc_cache_keys (request_url : String) : String := md5Hex (utf8Encode request_url)

/-- `_cache_keys` of the legacy top-level `httpcache.py`, which hashes
`f"{method}:{url}"`. -/
def legacy_cache_keys (method url : String) : String :=
  md5Hex (utf8Encode (method ++ ":" ++ url))

/-- `HTTPCache._parse_cache_control`: headers are a
`CaseInsensitiveDict`, so one case-insensitive lookup suffices. -/
def parse_cache_control_ci (headers : List (String × String)) : List (String × Option String) :=
  match ciGet headers "cache-control" with
  | some v => if v = "" then [] else parseCCValue v
  | none => []

/-- `utils.check_date` on a response with case-insensitive headers, under
the `try/except DateDirectiveMissing` of `httpcache.py`. -/
def dateOfCI (to_date : String → Int) (now : Int) (headers : List (String × String)) : Int :=
  match ciGet headers "Date" with
  | some s => if s = "" then now else to_date s
  | none => now

/-- `HTTPCache._check_freshness` (the method variant of the policy
function, operating on case-insensitive header maps). -/
def check_freshness_ci (to_date : String → Int) (now : Int)
    (req_headers resp_headers : List (String × String)) : Int :=
  let req_cc := parse_cache_control_ci req_headers
  let resp_cc := parse_cache_control_ci resp_headers
  if ccMem req_cc "no-cache" then 2
  else if ccMem resp_cc "no-cache" then STALE
  else if ccMem req_cc "only-if-cached" then FRESH
  else
    let date := dateOfCI to_date now resp_headers
    let current_age : Int := now - date
    let resp_max_age := ccGetV resp_cc "max-age"
    let fresh :=
      match resp_max_age with
      | some v =>
        match pyInt? v with
        | some n => decide (current_age ≤ n)
        | none => false
      | none =>
        match ciGet resp_headers "expires" with
        | some e => if e = "" then false else decide (now ≤ to_date e)
        | none => false
    let max_stale := ccGetV req_cc "max-stale"
    let fresh :=
      if fresh = false ∧ max_stale ≠ none then
        match max_stale with
        | some ms =>
          if ms = "" then true
          else
            match pyInt? ms with
            | some m =>
              match resp_max_age with
              | some v =>
                match pyInt? v with
                | some n => if current_age - n ≤ m then true else fresh
                | none => fresh
              | none => fresh
            | none => fresh
        | none => true
      else fresh
    let min_fresh := ccGetV req_cc "min-fresh"
    let fresh :=
      if fresh = true ∧ min_fresh ≠ none then
        match min_fresh with
        | some mf =>
          match pyInt? mf with
          | some f =>
            match resp_max_age with
            | some v =>
              match pyInt? v with
              | some n => if n - current_age < f then false else fresh
              | none => fresh
            | none => fresh
          | none => fresh
        | none => fresh
      else fresh
    if fresh then FRESH else STALE

/-- `HTTPCache._stale_error_check`. -/
def stale_error_check_ci (to_date : String → Int) (now : Int)
    (headers : List (String × String)) : Bool :=
  let cc := parse_cache_control_ci headers
  let stale_if_error := ccGetV cc "stale-if-error"
  if truthy stale_if_error = false then false
  else
    match stale_if_error with
    | some s =>
      match pyInt? s with
      | some stale_window =>
        let date := dateOfCI to_date now headers
        let age : Int := now - date
        decide (age ≤ stale_window)
      | none => false
    | none => false

/-- A decoded text as a Lean string (list of code points). -/
def pointsToStr (ps : List Nat) : String := ⟨ps.map Char.ofNat⟩

/-- `HTTPCache._serialize_response`: note the body is stored as
`resp.content.decode("utf-8", errors="replace")` — a lossy text decode,
not a binary-safe codec. -/
def serialize_response (nowIso : String) (resp : HResponse) : CacheEntry :=
  { status_code := resp.status_code
    reason := resp.reason
    entry_url := resp.resp_url
    headers := resp.headers
    body := if resp.content = [] then "" else pointsToStr (utf8DecodeReplace resp.content)
    encoding := resp.encoding
    timestamp := nowIso }

/-- `HTTPCache._build_response_from_cache`: the stored body (a `str` in
this layer) is re-encoded with UTF-8. -/
def build_response_from_cache (e : CacheEntry) : HResponse :=
  { status_code := e.status_code
    reason := e.reason
    resp_url := e.entry_url
    headers := e.headers
    content := utf8Encode e.body
    encoding := e.encoding }

/-! ## `httpcache.py` — the `send` pipeline -/

deriving instance DecidableEq for Except

/-- Outcome of one `HTTPCache.send` call: the returned response (or the
propagated transport exception), the final backend states, and the
request actually handed to the wrapped transport (if any). -/
structure SendResult where
  result : Except Unit HResponse
  backends : List BackendState
  forwarded : Option HRequest
deriving DecidableEq

/-- The backend lookup loop: first backend holding the key wins; returns
the winning index and entry. -/
def findEntry : List BackendState → String → Option (Nat × CacheEntry)
  | [], _ => none
  | b :: bs, k =>
    match bGet b k with
    | some e => some (0, e)
    | none => (findEntry bs k).map (fun p => (p.1 + 1, p.2))

/-- Read repair: `for i in range(found_in_index): backends[i].set(...)`. -/
def setBelow : List BackendState → Nat → String → CacheEntry → List BackendState
  | [], _, _, _ => []
  | b :: bs, 0, _, _ => b :: bs
  | b :: bs, i + 1, k, e => bSet b k e :: setBelow bs i k e

/-- Lines 146–180 of `send`: the network call and everything after it. -/
def hc_send_net (to_date : String → Int) (now : Int) (nowIso : String)
    (transport : HRequest → Except Unit HResponse)
    (request : HRequest) (backends : List BackendState)
    (cached_key : String) (cachable : Bool) (cache_resp : Option HResponse) : SendResult :=
  match transport request with
  | .error err => { result := .error err, backends := backends, forwarded := some request }
  | .ok resp =>
    let merged304 : Option SendResult :=
      match cache_resp with
      | some cr =>
        if resp.status_code = 304 then
          let mergedH := resp.headers.foldl (fun h kv => ciSet h kv.1 kv.2) cr.headers
          let merged := { cr with headers := mergedH }
          let new_entry := serialize_response nowIso merged
          let backends2 := backends.map (fun b => bSet b cached_key new_entry)
          let mergedFinal := { merged with headers := ciSet merged.headers "X-Cache" "hits" }
          some { result := .ok mergedFinal, backends := backends2, forwarded := some request }
        else none
      | none => none
    match merged304 with
    | some r => r
    | none =>
      let staleServe : Option SendResult :=
        match cache_resp with
        | some cr =>
          if 500 ≤ resp.status_code ∧ stale_error_check_ci to_date now cr.headers then
            some { result := .ok { cr with
                     headers := ciSet cr.headers "Stale-Warning" "110 - \"Response is stale\"" }
                   backends := backends
                   forwarded := some request }
          else none
        | none => none
      match staleServe with
      | some r => r
      | none =>
        let stored :=
          if cachable ∧ resp.status_code = 200 then
            let resp_cc := parse_cache_control_ci resp.headers
            if ccMem resp_cc "no-store" = false then
              let respX := { resp with headers := ciSet resp.headers "X-Cache" "miss" }
              let entry := serialize_response nowIso respX
              (respX, backends.map (fun b => bSet b cached_key entry))
            else (resp, backends)
          else (resp, backends)
        let backendsB :=
          if stored.1.status_code ≠ 304 ∧ stored.1.status_code ≠ 200 then
            stored.2.map (fun b => bDel b cached_key)
          else stored.2
        { result := .ok stored.1, backends := backendsB, forwarded := some request }

/-- Lines 135–144 of `send`: copy the cached validators onto the
outgoing request (`if-none-matched` is the header name the source
writes). -/
def revalidated (request : HRequest) (crHeaders : List (String × String)) : HRequest :=
  let req1 :=
    match ciGet crHeaders "etag" with
    | some et =>
      if et ≠ "" then
        { request with headers := ciSet request.headers "if-none-matched" et }
      else request
    | none => request
  match ciGet crHeaders "last-modified" with
  | some lm =>
    if lm ≠ "" then
      { req1 with headers := ciSet req1.headers "if-modified-since" lm }
    else req1
  | none => req1

/-- `HTTPCache.send`.  External collaborators are parameters: the wrapped
transport (`super().send`), the header-date parser `to_date`, the clock
(`now` for freshness math, `nowIso` for the serialization timestamp). -/
def hc_send (to_date : String → Int) (now : Int) (nowIso : String)
    (transport : HRequest → Except Unit HResponse)
    (request : HRequest) (backends : List BackendState) : SendResult :=
  let bypass :=
    match request.url with
    | none => true
    | some u => u = ""
  if bypass then
    { result := transport request, backends := backends, forwarded := some request }
  else
    let u := request.url.getD ""
    let cached_key := hc_cache_keys u
    let cachable : Bool :=
      decide ((request.method = "GET" ∨ request.method = "HEAD") ∧
        ciGet request.headers "range" = none)
    let fnd := if cachable then findEntry backends cached_key else none
    match fnd with
    | none =>
      hc_send_net to_date now nowIso transport request backends cached_key cachable none
    | some ie =>
      let backends1 := setBelow backends ie.1 cached_key ie.2
      let cache_resp0 := build_response_from_cache ie.2
      let cache_resp := { cache_resp0 with
        headers := ciSet cache_resp0.headers "X-Cache" "hits" }
      let freshness := check_freshness_ci to_date now request.headers cache_resp.headers
      if freshness = FRESH then
        { result := .ok cache_resp, backends := backends1, forwarded := none }
      else
        hc_send_net to_date now nowIso transport (revalidated request cache_resp.headers)
          backends1 cached_key cachable (some cache_resp)

/-! ## `wrappers/httpx.py` — the base64 body codec -/

/-- Body field written by `HttpxCacheClient._serialize_response`:
`base64.b64encode(resp.content).decode("ascii")`. -/
def hx_serialize_body (content : List Nat) : String := b64EncodeStr content

/-- Content rebuilt by `HttpxCacheClient._build_response`: decode the
base64 body when truthy, else `b""`. -/
def hx_build_content (body : String) : List Nat :=
  if body = "" then [] else b64DecodeStr body

/-! ## `backends/memory.py` — `InMemoryCache` -/

/-- `InMemoryCache`: an ordered map (front = least recently used, back =
most recently used) of `(value, expiry)` pairs; `expiry = none` models
`float("inf")`. -/
structure MemCache (V : Type) where
  max_size : Nat
  default_ttl : Option Int
  data : List (String × V × Option Int)

def memEraseKey {V : Type} (d : List (String × V × Option Int)) (k : String) :
    List (String × V × Option Int) :=
  d.filter (fun p => p.1 ≠ k)

def memFind {V : Type} (d : List (String × V × Option Int)) (k : String) :
    Option (V × Option Int) :=
  (d.find? (fun p => p.1 = k)).map Prod.snd

/-- `InMemoryCache.get`. -/
def memGet {V : Type} (now : Int) (c : MemCache V) (k : String) : Option V × MemCache V :=
  match memFind c.data k with
  | none => (none, c)
  | some ve =>
    match ve.2 with
    | some e =>
      if e < now then (none, { c with data := memEraseKey c.data k })
      else (some ve.1, { c with data := memEraseKey c.data k ++ [(k, ve.1, some e)] })
    | none => (some ve.1, { c with data := memEraseKey c.data k ++ [(k, ve.1, none)] })

/-- `InMemoryCache.set`. -/
def memSet {V : Type} (now : Int) (c : MemCache V) (k : String) (v : V) (ttl : Option Int) :
    MemCache V :=
  let ttl_val := match ttl with | some t => some t | none => c.default_ttl
  let expiry := ttl_val.map (fun t => now + t)
  let d1 := memEraseKey c.data k ++ [(k, v, expiry)]
  let d2 := if c.max_size < d1.length then d1.tail else d1
  { c with data := d2 }

/-! ## Shared concrete fixtures -/

/-- A 200 response whose body is the gzip magic sequence
`b"\x1f\x8b\x08\x00\x00\x00\x00\x00"` (not valid UTF-8). -/
def gzipResp : HResponse :=
  { status_code := 200, reason := "OK", resp_url := "http://h/gz",
    headers := [("Content-Type", "application/gzip"), ("Cache-Control", "max-age=3600")],
    content := [31, 139, 8, 0, 0, 0, 0, 0], encoding := none }

/-- The cached response reconstructed and annotated by lines 123–124 of
`HTTPCache.send` (`X-Cache: hits`). -/
def cachedRespOf (e : CacheEntry) : HResponse :=
  let r := build_response_from_cache e
  { r with headers := ciSet r.headers "X-Cache" "hits" }

/-! ## Claim theorems -/

/-- Claim C1 (code bug).  The claim asserts a byte-for-byte binary body
round-trip for every stored response.  The httpx integration layer does
round-trip binary payloads (its body codec is base64), but the
synchronous `HTTPCache` layer stores
`resp.content.decode("utf-8", errors="replace")` and re-encodes with
UTF-8 on reconstruction: on the gzip magic bytes the invalid byte `0x8b`
is replaced by U+FFFD, so the reconstructed body differs from the
original — contradicting the test `test_binary_storage` of the repository,
which pipes exactly these bytes through `HTTPCache` with an
`InMemoryCache` and asserts byte equality. -/
theorem c1_sync_body_roundtrip_is_lossy :
    hx_build_content (hx_serialize_body [31, 139, 8, 0, 0, 0, 0, 0]) = [31, 139, 8, 0, 0, 0, 0, 0] ∧
    (build_response_from_cache (serialize_response "ts" gzipResp)).content =
      [31, 239, 191, 189, 8, 0, 0, 0, 0, 0] ∧
    (build_response_from_cache (serialize_response "ts" gzipResp)).content ≠ gzipResp.content := by
  decide

/-- Claim C4 (code bug).  `max-stale=M` with a response `max-age=N` does
make a non-fresh response fresh exactly when `age − N ≤ M`, but a *bare*
`max-stale` does not make the classification fresh: the parser records
the valueless directive as the sentinel `None`, `req_cc.get("max-stale")`
then returns `None` exactly as for an absent directive, and the guard
`max_stale is not None` skips the whole relaxation (the
`if max_stale is None ... : fresh = True` branch of `check_freshness` is
dead code).  Evaluations below: bare `max-stale` on a response of age 100
with `max-age=0` is classified STALE although the directive is present
(`ccGet … = some none`); `max-stale=50` yields FRESH at age 40 and STALE
at age 60. -/
theorem c4_bare_max_stale_is_ignored :
    check_freshness (fun _ => 0) 100 [("Cache-Control", "max-stale")]
      [("Cache-Control", "max-age=0"), ("Date", "d")] = STALE ∧
    ccGet (parse_cache_control [("Cache-Control", "max-stale")]) "max-stale" = some none ∧
    check_freshness (fun _ => 0) 40 [("Cache-Control", "max-stale=50")]
      [("Cache-Control", "max-age=0"), ("Date", "d")] = FRESH ∧
    check_freshness (fun _ => 0) 60 [("Cache-Control", "max-stale=50")]
      [("Cache-Control", "max-age=0"), ("Date", "d")] = STALE ∧
    STALE ≠ FRESH := by
  decide

/-- Claim C9 (confirmed).  When the response headers carry no `Date` key
but their `Cache-Control` contains `stale-if-error=S` with `S` a
non-negative integer, `check_stale_if_error` substitutes `now` for the
response date, computes age 0, and returns `True` — regardless of how
long ago the entry was actually stored. -/
theorem c9_dateless_stale_if_error_always_eligible
    (to_date : String → Int) (now : Int) (rs : List (String × String))
    (s : String) (S : Int)
    (hdate : dictGet rs "Date" = none)
    (hdir : ccGetV (parse_cache_control rs) "stale-if-error" = some s)
    (hint : pyInt? s = some S)
    (hpos : 0 ≤ S) :
    check_stale_if_error to_date now rs = true := by
  have hs : s ≠ "" := by
    intro h
    rw [h] at hint
    simp [pyInt?, trimChars, digitsToNat?] at hint
  simp only [check_stale_if_error, hdir, hdate, hint, truthy, dateOf]
  simp [hs]
  omega

/-- Witness for C9 at a concrete dateless header map. -/
theorem c9_witness :
    check_stale_if_error (fun _ => 0) 99999 [("Cache-Control", "stale-if-error=300")] = true :=
  c9_dateless_stale_if_error_always_eligible (fun _ => 0) 99999
    [("Cache-Control", "stale-if-error=300")] "300" 300
    (by decide) (by decide) (by decide) (by decide)

/-- Claim C10 (confirmed).  When the prepared request has no URL (or an
empty one), `HTTPCache.send` hands the request unchanged to the wrapped
transport and returns its outcome as is: no key is derived, no backend is
read, written or invalidated, and no `X-Cache` annotation is added. -/
theorem c10_empty_url_bypasses_cache
    (to_date : String → Int) (now : Int) (nowIso : String)
    (transport : HRequest → Except Unit HResponse)
    (request : HRequest) (backends : List BackendState)
    (hurl : request.url = none ∨ request.url = some "") :
    hc_send to_date now nowIso transport request backends =
      { result := transport request, backends := backends, forwarded := some request } ∧
    (∀ r, transport request = .ok r → ciGet r.headers "X-Cache" = none →
      (hc_send to_date now nowIso transport request backends).result = .ok r ∧
        ciGet r.headers "X-Cache" = none) := by
  have hb : hc_send to_date now nowIso transport request backends =
      { result := transport request, backends := backends, forwarded := some request } := by
    rcases hurl with h | h <;> simp [hc_send, h]
  refine ⟨hb, fun r hr hx => ?_⟩
  rw [hb]
  exact ⟨by simpa using congrArg id hr, hx⟩

/-- Witness for C10: a URL-less request against a transport returning a
fixed unannotated response leaves the backend list untouched. -/
theorem c10_witness :
    hc_send (fun _ => 0) 0 "ts" (fun _ => .ok gzipResp)
      { url := none, method := "GET", headers := [] } [[]] =
      { result := .ok gzipResp, backends := [[]],
        forwarded := some { url := none, method := "GET", headers := [] } } :=
  (c10_empty_url_bypasses_cache (fun _ => 0) 0 "ts" (fun _ => .ok gzipResp)
    { url := none, method := "GET", headers := [] } [[]] (Or.inl rfl)).1

/-! ### Fixtures for the revalidation / key-derivation claims -/

/-- A cached entry carrying both validators and no freshness information,
so any lookup classifies it STALE. -/
def revalEntry : CacheEntry :=
  { status_code := 200, reason := "OK", entry_url := "http://h/a",
    headers := [("ETag", "v1"), ("Last-Modified", "lm"), ("X-Old", "1")],
    body := "cachedbody", encoding := none, timestamp := "t0" }

def revalKey : String := hc_cache_keys "http://h/a"

/-- A GET request that already carries values on the conditional headers,
to observe them being overwritten. -/
def revalReq : HRequest :=
  { url := some "http://h/a", method := "GET",
    headers := [("if-none-matched", "old"), ("if-modified-since", "oldlm")] }

def resp304f : HResponse :=
  { status_code := 304, reason := "Not Modified", resp_url := "http://h/a",
    headers := [("X-New", "2")], content := [], encoding := none }

def c6run : SendResult :=
  hc_send (fun _ => 0) 100 "ts" (fun _ => .ok resp304f) revalReq [[(revalKey, revalEntry)]]

/-- Claim C6 (code bug).  For a STALE cached response the code does copy
the cached `ETag` and `Last-Modified` values onto the outgoing request
(overwriting existing values, both set together), but the ETag-bearing
header it writes is named `if-none-matched` — not the claimed (and
RFC-mandated) `If-None-Match`, so no server will ever honour the
condition.  `If-Modified-Since` is spelled correctly. -/
theorem c6_if_none_match_header_is_misspelled :
    (c6run.forwarded.map (fun r => ciGet r.headers "if-none-matched")) = some (some "v1") ∧
    (c6run.forwarded.map (fun r => ciGet r.headers "if-none-match")) = some none ∧
    (c6run.forwarded.map (fun r => ciGet r.headers "if-modified-since")) = some (some "lm") := by
  decide

/-! ### Fixtures for the cache-key claim -/

def c2req : HRequest := { url := some "http://h/a", method := "GET", headers := [] }

def c2resp : HResponse :=
  { status_code := 200, reason := "OK", resp_url := "http://h/a",
    headers := [("Cache-Control", "max-age=60")], content := [104, 105], encoding := none }

def c2run : SendResult := hc_send (fun _ => 0) 0 "ts" (fun _ => .ok c2resp) c2req [[]]

/-- Counterexample to claim C2 as stated: after a cachable miss the sole
key the entry is stored under is the MD5 of the URL alone; nothing is
stored under the MD5 of `METHOD:URL`, and the two keys differ. -/
theorem c2_counterexample :
    (c2run.backends.headD []).map Prod.fst = [hc_cache_keys "http://h/a"] ∧
    bGet (c2run.backends.headD []) (legacy_cache_keys "GET" "http://h/a") = none ∧
    hc_cache_keys "http://h/a" ≠ legacy_cache_keys "GET" "http://h/a" ∧
    hc_cache_keys "http://h/a" = md5Hex (utf8Encode "http://h/a") := by
  decide

/-- Counterexample to claim C3 as stated: the claim quantifies over
*every* response directive map, but a response `no-cache` is checked
before the baseline rules — at age 0 with `max-age=100` the claim demands
FRESH while `check_freshness` returns STALE. -/
theorem c3_counterexample :
    ccMem (parse_cache_control ([] : List (String × String))) "no-cache" = false ∧
    ccMem (parse_cache_control ([] : List (String × String))) "only-if-cached" = false ∧
    ccGetV (parse_cache_control [("Cache-Control", "no-cache, max-age=100"), ("Date", "d")])
      "max-age" = some "100" ∧
    ((0 : Int) - dateOf (fun _ => 0) 0 [("Cache-Control", "no-cache, max-age=100"), ("Date", "d")]) ≤ 100 ∧
    check_freshness (fun _ => 0) 0 [] [("Cache-Control", "no-cache, max-age=100"), ("Date", "d")] = STALE ∧
    STALE ≠ FRESH := by
  decide

/-! ## Helper lemmas -/

theorem bGet_bSet (b : BackendState) (k : String) (e : CacheEntry) :
    bGet (bSet b k e) k = some e := by
  induction b with
  | nil => simp [bSet, bGet]
  | cons p rest ih =>
    by_cases hp : p.1 = k
    · simp [bSet, bGet, hp]
    · by_cases hr : rest.any (fun q => q.1 = k)
      · have ihr : bGet (rest.map (fun q => if q.1 = k then (k, e) else q)) k = some e := by
          simpa [bSet, hr] using ih
        simp [bSet, bGet, hp, hr] at ihr ⊢
        exact ihr
      · have ihr : bGet (rest ++ [(k, e)]) k = some e := by
          simpa [bSet, hr] using ih
        simp [bSet, bGet, hp, hr] at ihr ⊢
        exact ihr

theorem mem_foldr_byteToHex (bs : List Nat) (c : Char)
    (hc : c ∈ bs.foldr (fun b acc => byteToHex b ++ acc) []) :
    ∃ b, c ∈ byteToHex b := by
  induction bs with
  | nil => simp at hc
  | cons b rest ih =>
    rcases List.mem_append.1 hc with h | h
    · exact ⟨b, h⟩
    · exact ih h

theorem hexDigitChar_mem (n : Nat) (h : n < 16) :
    hexDigitChar n ∈ "0123456789abcdef".data := by
  unfold hexDigitChar
  interval_cases n <;> decide

theorem md5Hex_length (msg : List Nat) : (md5Hex msg).length = 32 := rfl

theorem md5Hex_chars (msg : List Nat) :
    ∀ c ∈ (md5Hex msg).data, c ∈ "0123456789abcdef".data := by
  intro c hc
  obtain ⟨b, hb⟩ := mem_foldr_byteToHex (md5Bytes msg) c hc
  simp only [byteToHex, List.mem_cons, List.not_mem_nil, or_false] at hb
  rcases hb with rfl | rfl
  · exact hexDigitChar_mem _ (Nat.mod_lt _ (by norm_num))
  · exact hexDigitChar_mem _ (Nat.mod_lt _ (by norm_num))

/-- Claim C2, amended (corrected).  The key under which `HTTPCache.send`
stores and looks up entries is the 32-character lowercase-hex MD5 digest
of the URL alone (`_cache_keys` hashes `request.url` with no method
prefix; only the legacy top-level variant hashes `METHOD:URL`): on a
cachable miss answered by a storable 200, every backend ends up holding
an entry under `md5Hex(utf8(url))`. -/
theorem c2_key_is_md5_of_url
    (to_date : String → Int) (now : Int) (nowIso : String)
    (transport : HRequest → Except Unit HResponse)
    (request : HRequest) (backends : List BackendState)
    (u : String) (resp : HResponse)
    (hurl : request.url = some u) (hne : u ≠ "")
    (hmethod : request.method = "GET")
    (hrange : ciGet request.headers "range" = none)
    (hmiss : findEntry backends (hc_cache_keys u) = none)
    (htr : ∀ r, transport r = .ok resp)
    (hst : resp.status_code = 200)
    (hns : ccMem (parse_cache_control_ci resp.headers) "no-store" = false) :
    hc_cache_keys u = md5Hex (utf8Encode u) ∧
    (hc_cache_keys u).length = 32 ∧
    (∀ c ∈ (hc_cache_keys u).data, c ∈ "0123456789abcdef".data) ∧
    (∀ b ∈ (hc_send to_date now nowIso transport request backends).backends,
      ∃ e, bGet b (hc_cache_keys u) = some e) := by
  refine ⟨rfl, md5Hex_length _, md5Hex_chars _, ?_⟩
  simp only [hc_send, hurl, hne, hmethod, hrange]
  norm_num
  simp only [hmiss]
  simp only [hc_send_net, htr, hst]
  norm_num
  simp only [hns]
  norm_num
  intro b hb
  exact ⟨_, bGet_bSet _ _ _⟩

/-- Witness for C2: a concrete miss-then-store run against a single
empty backend. -/
theorem c2_witness :
    hc_cache_keys "http://h/a" = md5Hex (utf8Encode "http://h/a") ∧
    (hc_cache_keys "http://h/a").length = 32 ∧
    (∀ c ∈ (hc_cache_keys "http://h/a").data, c ∈ "0123456789abcdef".data) ∧
    (∀ b ∈ (hc_send (fun _ => 0) 0 "ts" (fun _ => .ok c2resp) c2req [[]]).backends,
      ∃ e, bGet b (hc_cache_keys "http://h/a") = some e) :=
  c2_key_is_md5_of_url (fun _ => 0) 0 "ts" (fun _ => .ok c2resp) c2req [[]]
    "http://h/a" c2resp rfl (by decide) rfl (by decide) (by decide)
    (fun _ => rfl) rfl (by decide)

/-- Claim C3, amended (corrected).  For request directives without
`no-cache`/`only-if-cached` (and without `max-stale`/`min-fresh` values —
the claim describes the stage before those adjustments) and response
directives **without `no-cache`**, `check_freshness` returns FRESH or
STALE, and returns FRESH iff: the response `max-age` value parses to an
integer `N` and `age ≤ N`; otherwise (no `max-age` value) the response
has a truthy `Expires` header and `now ≤ Expires`; otherwise it is
STALE.  (`age = now − Date`, with `now` substituted for a missing
`Date`.) -/
theorem c3_baseline_freshness (to_date : String → Int) (now : Int)
    (rq rs : List (String × String))
    (h1 : ccMem (parse_cache_control rq) "no-cache" = false)
    (h2 : ccMem (parse_cache_control rq) "only-if-cached" = false)
    (h3 : ccGetV (parse_cache_control rq) "max-stale" = none)
    (h4 : ccGetV (parse_cache_control rq) "min-fresh" = none)
    (h5 : ccMem (parse_cache_control rs) "no-cache" = false) :
    (check_freshness to_date now rq rs = FRESH ∨
      check_freshness to_date now rq rs = STALE) ∧
    (check_freshness to_date now rq rs = FRESH ↔
      ((∃ v n, ccGetV (parse_cache_control rs) "max-age" = some v ∧ pyInt? v = some n ∧
          now - dateOf to_date now rs ≤ n) ∨
       (ccGetV (parse_cache_control rs) "max-age" = none ∧
          ∃ e, pyOr (dictGet rs "expires") (dictGet rs "Expires") = some e ∧ e ≠ "" ∧
            now ≤ to_date e))) := by
  have key : check_freshness to_date now rq rs =
      (match ccGetV (parse_cache_control rs) "max-age" with
       | some v =>
         (match pyInt? v with
          | some n => if now - dateOf to_date now rs ≤ n then FRESH else STALE
          | none => STALE)
       | none =>
         (match pyOr (dictGet rs "expires") (dictGet rs "Expires") with
          | some e => if e = "" then STALE else if now ≤ to_date e then FRESH else STALE
          | none => STALE)) := by
    unfold check_freshness
    simp only [h1, h2, h5, h3, h4]
    rcases hma : ccGetV (parse_cache_control rs) "max-age" with _ | v
    · simp only [hma]
      rcases hex : pyOr (dictGet rs "expires") (dictGet rs "Expires") with _ | e
      · simp [hex]
      · by_cases he : e = "" <;> by_cases hle : now ≤ to_date e <;>
          simp [hex, he, hle, FRESH, STALE]
    · simp only [hma]
      rcases hn : pyInt? v with _ | n
      · simp [hn]
      · by_cases hle : now - dateOf to_date now rs ≤ n <;>
          simp [hn, hle, FRESH, STALE]
  rw [key]
  rcases hma : ccGetV (parse_cache_control rs) "max-age" with _ | v
  · simp only [hma]
    rcases hex : pyOr (dictGet rs "expires") (dictGet rs "Expires") with _ | e
    · simp [FRESH, STALE]
    · by_cases he : e = ""
      · simp [he, FRESH, STALE]
      · by_cases hle : now ≤ to_date e
        · simp [he, hle, FRESH, STALE]
        · simp [he, hle, FRESH, STALE]
  · simp only [hma]
    rcases hn : pyInt? v with _ | n
    · simp [hn, FRESH, STALE]
    · by_cases hle : now - dateOf to_date now rs ≤ n
      · simp [hn, hle, FRESH, STALE]
        omega
      · simp [hn, hle, FRESH, STALE]
        omega

/-- Witness for C3: a fresh `max-age=100` response of age 50. -/
theorem c3_witness :
    (check_freshness (fun _ => 0) 50 [] [("Cache-Control", "max-age=100"), ("Date", "d")] = FRESH ∨
      check_freshness (fun _ => 0) 50 [] [("Cache-Control", "max-age=100"), ("Date", "d")] = STALE) ∧
    (check_freshness (fun _ => 0) 50 [] [("Cache-Control", "max-age=100"), ("Date", "d")] = FRESH ↔
      ((∃ v n, ccGetV (parse_cache_control [("Cache-Control", "max-age=100"), ("Date", "d")])
            "max-age" = some v ∧ pyInt? v = some n ∧
          (50 : Int) - dateOf (fun _ => 0) 50 [("Cache-Control", "max-age=100"), ("Date", "d")] ≤ n) ∨
       (ccGetV (parse_cache_control [("Cache-Control", "max-age=100"), ("Date", "d")])
            "max-age" = none ∧
          ∃ e, pyOr (dictGet [("Cache-Control", "max-age=100"), ("Date", "d")] "expires")
              (dictGet [("Cache-Control", "max-age=100"), ("Date", "d")] "Expires") = some e ∧
            e ≠ "" ∧ (50 : Int) ≤ 0))) :=
  c3_baseline_freshness (fun _ => 0) 50 [] [("Cache-Control", "max-age=100"), ("Date", "d")]
    (by decide) (by decide) (by decide) (by decide) (by decide)

/-- Reduction helper: on a cachable request whose key is found in some
backend and whose cached response is not classified FRESH, `hc_send`
continues into `hc_send_net` with read-repaired backends and the
annotated cached response (the forwarded request may carry revalidation
headers). -/
theorem hc_send_found_stale
    (to_date : String → Int) (now : Int) (nowIso : String)
    (transport : HRequest → Except Unit HResponse)
    (request : HRequest) (backends : List BackendState)
    (u : String) (i : Nat) (e : CacheEntry)
    (hurl : request.url = some u) (hne : u ≠ "")
    (hmethod : request.method = "GET")
    (hrange : ciGet request.headers "range" = none)
    (hfind : findEntry backends (hc_cache_keys u) = some (i, e))
    (hstale : check_freshness_ci to_date now request.headers (cachedRespOf e).headers ≠ FRESH) :
    ∃ req2,
      hc_send to_date now nowIso transport request backends =
        hc_send_net to_date now nowIso transport req2
          (setBelow backends i (hc_cache_keys u) e)
          (hc_cache_keys u) true (some (cachedRespOf e)) := by
  have hstale' : check_freshness_ci to_date now request.headers
      (ciSet (build_response_from_cache e).headers "X-Cache" "hits") ≠ FRESH := hstale
  refine ⟨revalidated request (cachedRespOf e).headers, ?_⟩
  simp only [hc_send, hurl, hne, hmethod, hrange]
  norm_num
  simp only [hfind, hstale', if_neg, cachedRespOf]
  simp

/-- Claim C5, amended (corrected).  Eligibility: `check_stale_if_error`
returns `True` iff the own `Cache-Control` of the response carries
`stale-if-error=S` with `S` parseable as an integer and `age ≤ S`
(absent, bare, empty or malformed values are ineligible).  In the
synchronous integration layer a network attempt yielding status ≥ 500
with a cached response returns the cached response annotated
`Stale-Warning: 110 - "Response is stale"` when eligible and the 5xx
response when not; but a *transport exception* simply propagates — the
synchronous layer (unlike the httpx wrapper) never consults the cache on
an exception. -/
theorem c5_stale_if_error_pipeline
    (to_date : String → Int) (now : Int) (nowIso : String)
    (transport transport2 : HRequest → Except Unit HResponse)
    (request : HRequest) (backends : List BackendState)
    (u : String) (i : Nat) (e : CacheEntry) (resp : HResponse)
    (rs : List (String × String))
    (hurl : request.url = some u) (hne : u ≠ "")
    (hmethod : request.method = "GET")
    (hrange : ciGet request.headers "range" = none)
    (hfind : findEntry backends (hc_cache_keys u) = some (i, e))
    (hstale : check_freshness_ci to_date now request.headers (cachedRespOf e).headers ≠ FRESH)
    (htr : ∀ r, transport r = .ok resp)
    (h500 : 500 ≤ resp.status_code)
    (htr2 : ∀ r, transport2 r = .error ()) :
    (check_stale_if_error to_date now rs = true ↔
      ∃ s S, ccGetV (parse_cache_control rs) "stale-if-error" = some s ∧
        pyInt? s = some S ∧ now - dateOf to_date now rs ≤ S) ∧
    (stale_error_check_ci to_date now (cachedRespOf e).headers = true →
      (hc_send to_date now nowIso transport request backends).result =
        .ok { cachedRespOf e with
              headers := ciSet (cachedRespOf e).headers "Stale-Warning"
                "110 - \"Response is stale\"" }) ∧
    (stale_error_check_ci to_date now (cachedRespOf e).headers = false →
      (hc_send to_date now nowIso transport request backends).result = .ok resp) ∧
    (hc_send to_date now nowIso transport2 request backends).result = .error () := by
  have h304 : ¬(resp.status_code = 304) := by omega
  have h200 : ¬(resp.status_code = 200) := by omega
  obtain ⟨req2, hred⟩ := hc_send_found_stale to_date now nowIso transport
    request backends u i e hurl hne hmethod hrange hfind hstale
  obtain ⟨req2b, hred2⟩ := hc_send_found_stale to_date now nowIso transport2
    request backends u i e hurl hne hmethod hrange hfind hstale
  refine ⟨?_, ?_, ?_, ?_⟩
  · unfold check_stale_if_error
    rcases hd : ccGetV (parse_cache_control rs) "stale-if-error" with _ | s
    · simp [hd, truthy]
    · by_cases hs : s = ""
      · subst hs
        simp [hd, truthy, pyInt?, trimChars, digitsToNat?]
      · simp only [hd, truthy, hs]
        rcases hn : pyInt? s with _ | S
        · simp [hn, hs]
        · simp [hn, hs]
  · intro hsec
    rw [hred]
    simp [hc_send_net, htr, h304, h200, h500, hsec]
  · intro hsec
    rw [hred]
    simp [hc_send_net, htr, h304, h200, h500, hsec]
  · rw [hred2]
    simp [hc_send_net, htr2]

/-- A cached entry eligible for stale-if-error at age 30. -/
def c5entry : CacheEntry :=
  { status_code := 200, reason := "OK", entry_url := "http://h/a",
    headers := [("Cache-Control", "max-age=0, stale-if-error=300"), ("Date", "d")],
    body := "sie", encoding := none, timestamp := "t0" }

def resp503f : HResponse :=
  { status_code := 503, reason := "Service Unavailable", resp_url := "http://h/a",
    headers := [], content := [], encoding := none }

def c5run : SendResult :=
  hc_send (fun _ => 0) 30 "ts" (fun _ => .error ()) c2req [[(revalKey, c5entry)]]

/-- Counterexample to claim C5 as stated: the cached entry is
stale-if-error-eligible and the transport raises (after a network attempt
was made, witnessed by `forwarded ≠ none`), yet the synchronous layer
propagates the exception instead of returning the cached response. -/
theorem c5_counterexample :
    stale_error_check_ci (fun _ => 0) 30 (cachedRespOf c5entry).headers = true ∧
    c5run.result = .error () ∧
    c5run.forwarded ≠ none := by
  decide

/-- Witness for C5: concrete 503 and exception runs against the eligible
entry. -/
theorem c5_witness :
    (check_stale_if_error (fun _ => 0) 30 c5entry.headers = true ↔
      ∃ s S, ccGetV (parse_cache_control c5entry.headers) "stale-if-error" = some s ∧
        pyInt? s = some S ∧ (30 : Int) - dateOf (fun _ => 0) 30 c5entry.headers ≤ S) ∧
    (stale_error_check_ci (fun _ => 0) 30 (cachedRespOf c5entry).headers = true →
      (hc_send (fun _ => 0) 30 "ts" (fun _ => .ok resp503f) c2req
          [[(revalKey, c5entry)]]).result =
        .ok { cachedRespOf c5entry with
              headers := ciSet (cachedRespOf c5entry).headers "Stale-Warning"
                "110 - \"Response is stale\"" }) ∧
    (stale_error_check_ci (fun _ => 0) 30 (cachedRespOf c5entry).headers = false →
      (hc_send (fun _ => 0) 30 "ts" (fun _ => .ok resp503f) c2req
          [[(revalKey, c5entry)]]).result = .ok resp503f) ∧
    (hc_send (fun _ => 0) 30 "ts" (fun _ => .error ()) c2req
        [[(revalKey, c5entry)]]).result = .error () :=
  c5_stale_if_error_pipeline (fun _ => 0) 30 "ts" (fun _ => .ok resp503f) (fun _ => .error ())
    c2req [[(revalKey, c5entry)]] "http://h/a" 0 c5entry resp503f c5entry.headers
    rfl (by decide) rfl (by decide) (by decide) (by decide) (fun _ => rfl) (by decide)
    (fun _ => rfl)

theorem ciGet_congr (h : List (String × String)) (k k' : String)
    (hl : strLower k = strLower k') : ciGet h k = ciGet h k' := by
  simp [ciGet, hl]

theorem ciGet_ciSet_self (h : List (String × String)) (k v : String) :
    ciGet (ciSet h k v) k = some v := by
  induction h with
  | nil => simp [ciSet, ciGet]
  | cons p rest ih =>
    by_cases hp : strLower p.1 = strLower k
    · simp [ciSet, ciGet, hp]
    · by_cases hr : rest.any (fun q => strLower q.1 = strLower k)
      · have ihr : ciGet (rest.map
            (fun q => if strLower q.1 = strLower k then (k, v) else q)) k = some v := by
          simpa [ciSet, hr] using ih
        simp [ciSet, ciGet, hp, hr] at ihr ⊢
        exact ihr
      · have ihr : ciGet (rest ++ [(k, v)]) k = some v := by
          simpa [ciSet, hr] using ih
        simp [ciSet, ciGet, hp, hr] at ihr ⊢
        exact ihr

theorem ciGet_ciSet_eqLower (h : List (String × String)) (k' k v : String)
    (hl : strLower k' = strLower k) : ciGet (ciSet h k' v) k = some v := by
  rw [← ciGet_congr (ciSet h k' v) k' k hl]
  exact ciGet_ciSet_self h k' v

theorem ciGet_map_replace (h : List (String × String)) (k' k v : String)
    (hne : strLower k' ≠ strLower k) :
    ciGet (h.map (fun p => if strLower p.1 = strLower k' then (k', v) else p)) k =
      ciGet h k := by
  induction h with
  | nil => rfl
  | cons p rest ih =>
    simp only [List.map_cons]
    by_cases hp : strLower p.1 = strLower k'
    · have hpk : ¬(strLower p.1 = strLower k) := fun hh => hne (hp.symm.trans hh)
      rw [if_pos hp]
      unfold ciGet
      rw [List.find?_cons_of_neg _ (by simpa using hne),
        List.find?_cons_of_neg _ (by simpa using hpk)]
      exact ih
    · rw [if_neg hp]
      by_cases hpk : strLower p.1 = strLower k
      · unfold ciGet
        rw [List.find?_cons_of_pos _ (by simpa using hpk),
          List.find?_cons_of_pos _ (by simpa using hpk)]
      · unfold ciGet
        rw [List.find?_cons_of_neg _ (by simpa using hpk),
          List.find?_cons_of_neg _ (by simpa using hpk)]
        exact ih

theorem ciGet_append_right_miss (h : List (String × String)) (k' k v : String)
    (hne : strLower k' ≠ strLower k) :
    ciGet (h ++ [(k', v)]) k = ciGet h k := by
  induction h with
  | nil => simp [ciGet, hne]
  | cons p rest ih =>
    rw [List.cons_append]
    by_cases hpk : strLower p.1 = strLower k
    · unfold ciGet
      rw [List.find?_cons_of_pos _ (by simpa using hpk),
        List.find?_cons_of_pos _ (by simpa using hpk)]
    · unfold ciGet
      rw [List.find?_cons_of_neg _ (by simpa using hpk),
        List.find?_cons_of_neg _ (by simpa using hpk)]
      exact ih

theorem ciGet_ciSet_ne (h : List (String × String)) (k' v k : String)
    (hne : strLower k' ≠ strLower k) :
    ciGet (ciSet h k' v) k = ciGet h k := by
  unfold ciSet
  by_cases ha : h.any (fun p => strLower p.1 = strLower k')
  · simp only [ha, if_pos]
    exact ciGet_map_replace h k' k v hne
  · simp only [ha]
    simp only [Bool.false_eq_true, if_false]
    exact ciGet_append_right_miss h k' k v hne

/-- Folding `ciSet` over pairs none of which matches `k` (after
lowering) leaves `ciGet _ k` unchanged. -/
theorem ciGet_mergeAll_not_mem (new : List (String × String))
    (base : List (String × String)) (k : String)
    (hk : ∀ kv ∈ new, strLower kv.1 ≠ strLower k) :
    ciGet (new.foldl (fun h kv => ciSet h kv.1 kv.2) base) k = ciGet base k := by
  induction new generalizing base with
  | nil => rfl
  | cons kv rest ih =>
    simp only [List.foldl_cons]
    rw [ih (ciSet base kv.1 kv.2) (fun q hq => hk q (List.mem_cons_of_mem _ hq))]
    exact ciGet_ciSet_ne base kv.1 kv.2 k (hk kv (List.mem_cons_self _ _))

/-- Folding `ciSet` over a header list whose lowered keys are pairwise
distinct makes each of its entries win: the merged map returns the new
value. -/
theorem ciGet_mergeAll_mem (new : List (String × String))
    (base : List (String × String)) (k v : String)
    (hnd : new.Pairwise (fun p q => strLower p.1 ≠ strLower q.1))
    (hv : ciGet new k = some v) :
    ciGet (new.foldl (fun h kv => ciSet h kv.1 kv.2) base) k = some v := by
  induction new generalizing base with
  | nil => simp [ciGet] at hv
  | cons kv rest ih =>
    simp only [List.foldl_cons]
    by_cases hh : strLower kv.1 = strLower k
    · have hvkv : v = kv.2 := by
        unfold ciGet at hv
        rw [List.find?_cons_of_pos _ (by simpa using hh)] at hv
        simp at hv
        exact hv.symm
      subst hvkv
      have hrest : ∀ q ∈ rest, strLower q.1 ≠ strLower k := by
        intro q hq hqk
        exact (List.pairwise_cons.1 hnd).1 q hq (hh.trans hqk.symm)
      rw [ciGet_mergeAll_not_mem rest (ciSet base kv.1 kv.2) k hrest]
      exact ciGet_ciSet_eqLower base kv.1 k kv.2 hh
    · have hv' : ciGet rest k = some v := by
        unfold ciGet at hv ⊢
        rwa [List.find?_cons_of_neg _ (by simpa using hh)] at hv
      exact ih (ciSet base kv.1 kv.2) (List.pairwise_cons.1 hnd).2 hv'

/-- Claim C7 (confirmed).  When the transport answers 304 for a request
with a found (stale) cached response: the returned response keeps the
cached status and body, carries `X-Cache: hits`, its headers are the
cached headers with the headers of the 304 merged over them (the 304 value
wins per key, other cached headers survive), and the re-serialized
merged entry — still bearing the cached status code, never 304 — is
written to every backend. -/
theorem c7_304_merge
    (to_date : String → Int) (now : Int) (nowIso : String)
    (transport : HRequest → Except Unit HResponse)
    (request : HRequest) (backends : List BackendState)
    (u : String) (i : Nat) (e : CacheEntry) (resp : HResponse)
    (hurl : request.url = some u) (hne : u ≠ "")
    (hmethod : request.method = "GET")
    (hrange : ciGet request.headers "range" = none)
    (hfind : findEntry backends (hc_cache_keys u) = some (i, e))
    (hstale : check_freshness_ci to_date now request.headers (cachedRespOf e).headers ≠ FRESH)
    (htr : ∀ r, transport r = .ok resp)
    (h304 : resp.status_code = 304)
    (hnd : resp.headers.Pairwise (fun p q => strLower p.1 ≠ strLower q.1)) :
    ∃ merged ne,
      (hc_send to_date now nowIso transport request backends).result = .ok merged ∧
      merged.status_code = e.status_code ∧
      merged.content = utf8Encode e.body ∧
      ciGet merged.headers "X-Cache" = some "hits" ∧
      (∀ k v, strLower k ≠ "x-cache" → ciGet resp.headers k = some v →
        ciGet merged.headers k = some v) ∧
      (∀ k, strLower k ≠ "x-cache" → (∀ kv ∈ resp.headers, strLower kv.1 ≠ strLower k) →
        ciGet merged.headers k = ciGet (cachedRespOf e).headers k) ∧
      (∀ b ∈ (hc_send to_date now nowIso transport request backends).backends,
        bGet b (hc_cache_keys u) = some ne) ∧
      ne.status_code = e.status_code ∧
      (∀ k v, ciGet resp.headers k = some v → ciGet ne.headers k = some v) := by
  obtain ⟨req2, hred⟩ := hc_send_found_stale to_date now nowIso transport
    request backends u i e hurl hne hmethod hrange hfind hstale
  rw [hred]
  simp only [hc_send_net, htr, h304]
  norm_num
  refine ⟨rfl, rfl, ciGet_ciSet_self _ "X-Cache" "hits", ?_, ?_,
    serialize_response nowIso { cachedRespOf e with
      headers := List.foldl (fun h kv => ciSet h kv.1 kv.2) (cachedRespOf e).headers
        resp.headers },
    ?_, rfl, ?_⟩
  · intro k v hk hv
    have hxc : strLower "X-Cache" ≠ strLower k := by
      have hlit : strLower "X-Cache" = "x-cache" := rfl
      rw [hlit]
      exact fun hh => hk hh.symm
    rw [ciGet_ciSet_ne _ "X-Cache" "hits" k hxc]
    exact ciGet_mergeAll_mem resp.headers (cachedRespOf e).headers k v hnd hv
  · intro k hk hnotin
    have hxc : strLower "X-Cache" ≠ strLower k := by
      have hlit : strLower "X-Cache" = "x-cache" := rfl
      rw [hlit]
      exact fun hh => hk hh.symm
    rw [ciGet_ciSet_ne _ "X-Cache" "hits" k hxc]
    exact ciGet_mergeAll_not_mem resp.headers (cachedRespOf e).headers k
      (fun kv hkv => hnotin kv.1 kv.2 hkv)
  · intro a ha
    exact bGet_bSet _ _ _
  · intro k v hv
    exact ciGet_mergeAll_mem resp.headers (cachedRespOf e).headers k v hnd hv

/-- Witness for C7: the stale validator-bearing entry revalidated by a
304 carrying one new header. -/
theorem c7_witness :
    ∃ merged ne,
      (hc_send (fun _ => 0) 100 "ts" (fun _ => .ok resp304f) revalReq
          [[(revalKey, revalEntry)]]).result = .ok merged ∧
      merged.status_code = revalEntry.status_code ∧
      merged.content = utf8Encode revalEntry.body ∧
      ciGet merged.headers "X-Cache" = some "hits" ∧
      (∀ k v, strLower k ≠ "x-cache" → ciGet resp304f.headers k = some v →
        ciGet merged.headers k = some v) ∧
      (∀ k, strLower k ≠ "x-cache" → (∀ kv ∈ resp304f.headers, strLower kv.1 ≠ strLower k) →
        ciGet merged.headers k = ciGet (cachedRespOf revalEntry).headers k) ∧
      (∀ b ∈ (hc_send (fun _ => 0) 100 "ts" (fun _ => .ok resp304f) revalReq
          [[(revalKey, revalEntry)]]).backends,
        bGet b (hc_cache_keys "http://h/a") = some ne) ∧
      ne.status_code = revalEntry.status_code ∧
      (∀ k v, ciGet resp304f.headers k = some v → ciGet ne.headers k = some v) :=
  c7_304_merge (fun _ => 0) 100 "ts" (fun _ => .ok resp304f) revalReq
    [[(revalKey, revalEntry)]] "http://h/a" 0 revalEntry resp304f
    rfl (by decide) rfl (by decide) (by decide) (by decide) (fun _ => rfl) rfl (by decide)

/-! ## LRU development (`InMemoryCache`) -/

/-- `M` consecutive `set` calls (no TTL) on a fresh
`InMemoryCache(max_size=K, default_ttl=None)`. -/
def memInsertAll {V : Type} (K : Nat) (now : Int) (f : String → V) (ks : List String) :
    MemCache V :=
  ks.foldl (fun c k => memSet now c k (f k) none) ⟨K, none, []⟩

theorem memInsertAll_spec {V : Type} (K : Nat) (now : Int) (f : String → V)
    (ks : List String) (hnd : ks.Nodup) :
    (memInsertAll K now f ks).max_size = K ∧
    (memInsertAll K now f ks).default_ttl = none ∧
    (memInsertAll K now f ks).data =
      (ks.map (fun k => (k, f k, (none : Option Int)))).drop (ks.length - K) := by
  induction ks using List.reverseRecOn with
  | nil => exact ⟨rfl, rfl, by simp [memInsertAll]⟩
  | append_singleton ks k ih =>
    obtain ⟨h1, _, h3⟩ := List.nodup_append.1 hnd
    have hkn : k ∉ ks := fun hk => h3 hk (List.mem_singleton_self k)
    obtain ⟨hms, hdt, hdata⟩ := ih h1
    have hc : memInsertAll K now f ks =
        (⟨K, none, (ks.map (fun q => (q, f q, (none : Option Int)))).drop
          (ks.length - K)⟩ : MemCache V) := by
      have hh : memInsertAll K now f ks =
          ⟨(memInsertAll K now f ks).max_size, (memInsertAll K now f ks).default_ttl,
            (memInsertAll K now f ks).data⟩ := rfl
      rw [hh, hms, hdt, hdata]
    have hstep : memInsertAll K now f (ks ++ [k]) =
        memSet now (memInsertAll K now f ks) k (f k) none := by
      simp [memInsertAll, List.foldl_append]
    rw [hstep, hc]
    have herase : memEraseKey ((ks.map (fun q => (q, f q, (none : Option Int)))).drop
        (ks.length - K)) k =
        (ks.map (fun q => (q, f q, (none : Option Int)))).drop (ks.length - K) := by
      apply List.filter_eq_self.mpr
      intro p hp
      obtain ⟨q, hq, hpq⟩ := List.mem_map.1 (List.mem_of_mem_drop hp)
      have : p.1 = q := by rw [← hpq]
      simp only [this, ne_eq, decide_eq_true_eq]
      exact fun he => hkn (he ▸ hq)
    refine ⟨rfl, rfl, ?_⟩
    simp only [memSet, herase, Option.map_none']
    simp only [List.length_append, List.length_drop, List.length_map,
      List.length_singleton, List.map_append, List.map_cons, List.map_nil]
    by_cases hK : K ≤ ks.length
    · have hcond : K < ks.length - (ks.length - K) + 1 := by omega
      simp only [if_pos hcond]
      by_cases hK0 : K = 0
      · subst hK0
        have hde : (ks.map (fun q => (q, f q, (none : Option Int)))).drop
            (ks.length - 0) = [] := by
          apply List.drop_eq_nil_of_le
          simp
        rw [hde]
        have hlen : (ks.map (fun q => (q, f q, (none : Option Int))) ++
            [(k, f k, none)]).length ≤ ks.length + 1 - 0 := by simp
        rw [List.drop_eq_nil_of_le hlen]
        rfl
      · have hne : (ks.map (fun q => (q, f q, (none : Option Int)))).drop
            (ks.length - K) ≠ [] := by
          intro hnil
          have := congrArg List.length hnil
          simp at this
          omega
        rw [List.tail_append_of_ne_nil hne, List.tail_drop]
        rw [List.drop_append_of_le_length (by simp; omega)]
        have : ks.length - K + 1 = ks.length + 1 - K := by omega
        rw [this]
    · have hcond : ¬(K < ks.length - (ks.length - K) + 1) := by omega
      simp only [if_neg hcond]
      have h0 : ks.length - K = 0 := by omega
      have h0' : ks.length + 1 - K = 0 := by omega
      rw [h0, h0']
      simp

/-- Claim C8 (confirmed).  The LRU invariant of `InMemoryCache`: with
`max_size = K`, after `M > K` TTL-less sets on distinct keys exactly `K`
entries remain — the `K` most recently used, in use order; every `set`
leaves its key at the MRU end and, when the key is fresh and the cache
full, evicts exactly the LRU head; every successful `get` moves its key
to the MRU end. -/
theorem c8_lru_invariant {V : Type} (K : Nat) (now : Int) (f : String → V)
    (ks : List String) (hnd : ks.Nodup) (hM : K < ks.length) :
    ((memInsertAll K now f ks).data.length = K ∧
     (memInsertAll K now f ks).data =
       (ks.drop (ks.length - K)).map (fun k => (k, f k, (none : Option Int)))) ∧
    (∀ (c : MemCache V) (k : String) (v : V),
      (memGet now c k).1 = some v →
      ∃ ex, (memGet now c k).2.data = memEraseKey c.data k ++ [(k, v, ex)]) ∧
    (∀ (c : MemCache V) (k : String) (v : V), 0 < c.max_size →
      ∃ d' ex, (memSet now c k v none).data = d' ++ [(k, v, ex)]) ∧
    (∀ (c : MemCache V) (k : String) (v : V),
      (∀ p ∈ c.data, p.1 ≠ k) → c.data.length = c.max_size → 0 < c.max_size →
      ∃ ex, (memSet now c k v none).data = c.data.tail ++ [(k, v, ex)]) := by
  obtain ⟨hms, hdt, hdata⟩ := memInsertAll_spec K now f ks hnd
  refine ⟨⟨?_, ?_⟩, ?_, ?_, ?_⟩
  · rw [hdata]
    simp
    omega
  · rw [hdata, List.map_drop]
  · intro c k v hv
    unfold memGet at hv ⊢
    rcases hf : memFind c.data k with _ | ve
    · rw [hf] at hv
      simp at hv
    · rw [hf] at hv
      rcases ve with ⟨v', ex⟩
      rcases ex with _ | e
      · have hv' : v' = v := by simpa using hv
        subst hv'
        exact ⟨none, rfl⟩
      · by_cases hexp : e < now
        · simp only [if_pos hexp] at hv
          simp at hv
        · simp only [if_neg hexp] at hv
          have hv' : v' = v := by simpa using hv
          subst hv'
          refine ⟨some e, ?_⟩
          simp only [if_neg hexp]
  · intro c k v hK0
    unfold memSet
    by_cases hcond : c.max_size <
        (memEraseKey c.data k ++ [(k, v, (match (none : Option Int) with
          | some t => some t | none => c.default_ttl).map (fun t => now + t))]).length
    · simp only [if_pos hcond]
      have hne : memEraseKey c.data k ≠ [] := by
        intro hnil
        rw [hnil] at hcond
        simp at hcond
        omega
      rw [List.tail_append_of_ne_nil hne]
      exact ⟨_, _, rfl⟩
    · simp only [if_neg hcond]
      exact ⟨_, _, rfl⟩
  · intro c k v hfresh hfull hK0
    have herase : memEraseKey c.data k = c.data :=
      List.filter_eq_self.mpr (fun p hp => by
        simp only [ne_eq, decide_eq_true_eq]
        exact hfresh p hp)
    unfold memSet
    simp only [herase]
    have hcond : c.max_size < (c.data ++ [(k, v, (match (none : Option Int) with
        | some t => some t | none => c.default_ttl).map (fun t => now + t))]).length := by
      simp [hfull]
    simp only [if_pos hcond]
    have hne : c.data ≠ [] := by
      intro hnil
      rw [hnil] at hfull
      simp at hfull
      omega
    rw [List.tail_append_of_ne_nil hne]
    exact ⟨_, rfl⟩

/-- Witness for C8: three distinct inserts into a `max_size = 2` cache
keep exactly the last two. -/
theorem c8_witness :
    ((memInsertAll 2 0 (fun _ => (0 : Nat)) ["a", "b", "c"]).data.length = 2 ∧
     (memInsertAll 2 0 (fun _ => (0 : Nat)) ["a", "b", "c"]).data =
       (["a", "b", "c"].drop (["a", "b", "c"].length - 2)).map
         (fun k => (k, (0 : Nat), (none : Option Int)))) ∧
    (∀ (c : MemCache Nat) (k : String) (v : Nat),
      (memGet 0 c k).1 = some v →
      ∃ ex, (memGet 0 c k).2.data = memEraseKey c.data k ++ [(k, v, ex)]) ∧
    (∀ (c : MemCache Nat) (k : String) (v : Nat), 0 < c.max_size →
      ∃ d' ex, (memSet 0 c k v none).data = d' ++ [(k, v, ex)]) ∧
    (∀ (c : MemCache Nat) (k : String) (v : Nat),
      (∀ p ∈ c.data, p.1 ≠ k) → c.data.length = c.max_size → 0 < c.max_size →
      ∃ ex, (memSet 0 c k v none).data = c.data.tail ++ [(k, v, ex)]) :=
  c8_lru_invariant 2 0 (fun _ => 0) ["a", "b", "c"] (by decide) (by decide)

end Cachio

